import Mathlib

/-!
Verification of the private-blockchain core in `src/block.js`.

The file shallowly embeds the two classes of the source, `Block` and
`Blockchain`, as Lean definitions and proves the frozen claims about them.

Modelling conventions, stated once:

* The external hash capability `SHA256(JSON.stringify(x)).toString()` is
  modelled as an opaque constructor application (`JHash.sha` applied to the
  serialized fields).  `JSON.stringify` is injective on the block records of
  the source (distinct field values give distinct JSON texts) and `SHA256` is
  assumed collision-free, exactly the black-box contract of spec section 6,
  so the composite is modelled as the injective function it behaves as.
  A JS field that holds `null` is `JHash.null`; an arbitrary tampered string
  is `JHash.lit`.
* The body of a block is stored encoded
  (`Buffer.from(JSON.stringify(data)).toString('hex')`).  The codec is the
  external capability of spec section 6; it is modelled by `BodyVal`:
  `BodyVal.enc d` is the encoding of the value `d`, and `BodyVal.junk s`
  stands for any byte string on which `JSON.parse` throws.
* All methods of the source return promises but perform only synchronous
  work plus awaits of already-settled promises; they are embedded as pure
  functions, with the state of the `Blockchain` object threaded explicitly.
  A promise that is rejected is an `Except.error` / an error constructor; a
  promise that is never settled at all (a control path of the source that
  neither resolves nor rejects) is modelled by a dedicated `pending` value.
* Clock reads (`_getCurrentTimeStamp`, seconds since epoch) are passed in as
  an integer parameter `now`; the signature capability
  `bitcoinMessage.verify` is passed in as a boolean-valued function.
-/

deriving instance DecidableEq for Except

/-- Application-level values stored in a block body: the genesis marker
`(data: s)` written by `initializeChain`, and the star registration
`(star: s, owner: o)` written by `submitStar`. -/
inductive BData where
  | dataTag (data : String)
  | starOwner (star : String) (owner : String)
deriving DecidableEq, Repr

/-- An encoded block body.  `enc d` is `encodePayload d`; `junk s` is a byte
string that is not the encoding of any value (`JSON.parse` throws on it). -/
inductive BodyVal where
  | enc (d : BData)
  | junk (s : String)
deriving DecidableEq, Repr

/-- A JS value stored in a hash-bearing field (`hash`, `previousBlockHash`):
`null`, an arbitrary string, or a SHA256 digest of a serialized block.
`sha` carries the five serialized fields of the hashed block, making the
modelled hash function injective (see the header comment). -/
inductive JHash where
  | null
  | lit (s : String)
  | sha (hash : JHash) (height : Int) (body : BodyVal) (time : Int)
        (previousBlockHash : JHash)
deriving DecidableEq, Repr

/-- The `Block` class: field order follows the constructor of the source
(`hash`, `height`, `body`, `time`, `previousBlockHash`). -/
structure Block where
  hash : JHash
  height : Int
  body : BodyVal
  time : Int
  previousBlockHash : JHash
deriving DecidableEq, Repr

/-- `new Block(data)`: `hash = null`, `height = 0`, `body` is the encoded
data, `time = 0`, `previousBlockHash = null`. -/
def Block.new (d : BData) : Block :=
  ⟨JHash.null, 0, BodyVal.enc d, 0, JHash.null⟩

/-- `SHA256(JSON.stringify(b)).toString()` for a block `b`, hashed exactly as
it stands (the source does not clear the `hash` field before hashing in
`_addBlock`). -/
def serializeSHA256 (b : Block) : JHash :=
  JHash.sha b.hash b.height b.body b.time b.previousBlockHash

/-- The block with its `hash` field set to `null`, i.e. the spread
`(...self, hash: null)` used by `Block.validate` in the source. -/
def clearHash (b : Block) : Block :=
  ⟨JHash.null, b.height, b.body, b.time, b.previousBlockHash⟩

/-- `Block.validate()`: recompute the digest of the block with `hash`
cleared and compare with the stored `hash` (strict equality `===`). -/
def Block.validate (b : Block) : Bool :=
  decide (b.hash = serializeSHA256 (clearHash b))

/-- `JSON.parse(hex2ascii(body))`, returning `none` when the parse throws. -/
def decodeBody : BodyVal → Option BData
  | BodyVal.enc d => some d
  | BodyVal.junk _ => none

/-- A value resolved by the `getBData` getter: either the genesis sentinel
string or a decoded body object. -/
inductive BValue where
  | text (s : String)
  | obj (d : BData)
deriving DecidableEq, Repr

/-- A rejection of the `getBData` promise. -/
inductive JsErr where
  | parseFailed
  | noData
deriving DecidableEq, Repr

/-- The `getBData` getter.  For `height === 0` the promise is resolved with
the sentinel string first; the body decode that the source still runs
afterwards cannot change the already-settled promise, so the result is the
sentinel unconditionally.  Otherwise the body is decoded: a throwing parse
rejects the promise, and a decoded object (always truthy here) is resolved.
The falsy-parse rejection `noData` is unreachable for `BData` objects. -/
def Block.getBData (b : Block) : Except JsErr BValue :=
  if b.height = 0 then Except.ok (BValue.text "Genesis Block!")
  else
    match decodeBody b.body with
    | none => Except.error JsErr.parseFailed
    | some d => Except.ok (BValue.obj d)

/-- An entry of the `errorLog` array of `validateChain`:
`blockValidationFailed` is the record with message string
`Block validation failed!`, `prevHashMismatch` the record with message
string `Hash os previous block do not match!`.  The records of the source
carry only this message, nothing else. -/
inductive ValidationError where
  | blockValidationFailed
  | prevHashMismatch
deriving DecidableEq, Repr

/-- The `Blockchain` class state: the `chain` array and the `height`
counter (initialised to `-1` by the constructor). -/
structure Blockchain where
  chain : List Block
  height : Int
deriving DecidableEq, Repr

/-- The `errorLog` entries contributed by one block of the `forEach` loop of
`validateChain`, given the predecessor `arr[idx-1]` (`none` at index 0).
When `block.height > 0` but there is no predecessor the source reads
`.hash` of `undefined`, which throws inside the async callback; the throw
rejects only the ignored callback promise, so that block contributes no
link entry. -/
def blockErrors (prev : Option Block) (b : Block) : List ValidationError :=
  (if b.validate then [] else [ValidationError.blockValidationFailed]) ++
  (if 0 < b.height then
      match prev with
      | some p =>
          if b.previousBlockHash = p.hash then []
          else [ValidationError.prevHashMismatch]
      | none => []
    else [])

/-- The `forEach` walk of `validateChain`, carrying the predecessor block.
The async callbacks of the source are resumed in index order and all their
pushes land before any consumer of the resolved `errorLog` array runs, so
the observed log equals this sequential log. -/
def validateFrom : Option Block → List Block → List ValidationError
  | _, [] => []
  | prev, b :: rest => blockErrors prev b ++ validateFrom (some b) rest

/-- `Blockchain.validateChain()`: the full error log of the chain. -/
def validateChain (c : Blockchain) : List ValidationError :=
  validateFrom none c.chain

/-- A rejection of the `_addBlock` promise: the error log of the failed
validation, or a thrown JS error (reading `.hash` of `undefined` when the
chain is empty but the new height is positive). -/
inductive AddReject where
  | errs (es : List ValidationError)
  | thrown
deriving DecidableEq, Repr

/-- `Blockchain._addBlock(block)`.  The source mutates the passed block
(height, previous hash, time, hash, in that order), then awaits
`validateChain()` — over the chain as it is, the new block NOT included —
and only if the log is empty pushes the block and increments `height`.
The pair returned is (settled promise value, state of the chain object
after the call). -/
def _addBlock (c : Blockchain) (now : Int) (block : Block) :
    Except AddReject Block × Blockchain :=
  let newHeight := c.height + 1
  if 0 < newHeight then
    match c.chain.getLast? with
    | none => (Except.error AddReject.thrown, c)
    | some lastBlock =>
        let b3 : Block := ⟨block.hash, newHeight, block.body, now, lastBlock.hash⟩
        let b4 : Block := ⟨serializeSHA256 b3, newHeight, block.body, now, lastBlock.hash⟩
        if validateChain c = [] then
          (Except.ok b4, ⟨c.chain ++ [b4], c.height + 1⟩)
        else
          (Except.error (AddReject.errs (validateChain c)), c)
  else
    let b3 : Block := ⟨block.hash, newHeight, block.body, now, block.previousBlockHash⟩
    let b4 : Block := ⟨serializeSHA256 b3, newHeight, block.body, now, block.previousBlockHash⟩
    if validateChain c = [] then
      (Except.ok b4, ⟨c.chain ++ [b4], c.height + 1⟩)
    else
      (Except.error (AddReject.errs (validateChain c)), c)

/-- The `Blockchain` constructor state before `initializeChain` runs:
an empty `chain` array and `height = -1`. -/
def newBlockchain : Blockchain := ⟨[], -1⟩

/-- `initializeChain()`: when `height === -1`, add the genesis block
`new Block({data: 'Genesis Block'})`; the result of `_addBlock` is
discarded. -/
def initChain (c : Blockchain) (now : Int) : Blockchain :=
  if c.height = -1 then
    (_addBlock c now (Block.new (BData.dataTag "Genesis Block"))).2
  else c

/-- A freshly constructed `Blockchain` after its genesis initialisation has
completed, with the genesis block sealed at clock time `now`. -/
def initBlockchain (now : Int) : Blockchain :=
  initChain newBlockchain now

/-- `getChainHeight()`: resolves with the `height` counter. -/
def getChainHeight (c : Blockchain) : Int := c.height

/-- The sealed genesis block of a chain initialised at clock time `t0`. -/
def genesisBlock (t0 : Int) : Block :=
  ⟨JHash.sha JHash.null 0 (BodyVal.enc (BData.dataTag "Genesis Block")) t0 JHash.null,
   0, BodyVal.enc (BData.dataTag "Genesis Block"), t0, JHash.null⟩

/-- `message.split(':')` on the character list of the message. -/
def splitOnColon : List Char → List (List Char)
  | [] => [[]]
  | ch :: rest =>
      if ch = ':' then [] :: splitOnColon rest
      else
        match splitOnColon rest with
        | f :: more => (ch :: f) :: more
        | [] => [[ch]]

/-- The numeric value of a run of decimal digit characters. -/
def digitsVal (ds : List Char) : Nat :=
  ds.foldl (fun acc ch => 10 * acc + (ch.toNat - 48)) 0

/-- JS `parseInt` in base 10 on a character list: skip leading whitespace,
optional sign, then a non-empty run of digits; `none` is `NaN`. -/
def jsParseInt (s : List Char) : Option Int :=
  let t := s.dropWhile Char.isWhitespace
  let sign : Int := if t.head? = some '-' then -1 else 1
  let u := if t.head? = some '-' ∨ t.head? = some '+' then t.drop 1 else t
  let ds := u.takeWhile Char.isDigit
  if ds = [] then none else some (sign * (digitsVal ds : Int))

/-- `parseInt(message.split(':')[1])`: the timestamp embedded in the second
colon-delimited field of a challenge message. -/
def parseMessageTime (message : String) : Option Int :=
  jsParseInt ((splitOnColon message.data).getD 1 [])

/-- `requestMessageOwnershipVerification(address)`: the challenge message
`<address>:<currentTimestamp>:starRegistry`. -/
def requestMessageOwnershipVerification (address : String) (now : Int) : String :=
  address ++ ":" ++ toString now ++ ":starRegistry"

/-- A rejection of the `submitStar` promise: the expiry message
`Error: time passed 5 minutes.`, or a propagated `_addBlock` rejection. -/
inductive SubmitReject where
  | expired
  | addFailed (e : AddReject)
deriving DecidableEq, Repr

/-- The fate of the promise returned by `submitStar`: resolved with the
block, rejected, or never settled at all (`pending`). -/
inductive SubmitOutcome where
  | ok (b : Block)
  | rejected (e : SubmitReject)
  | pending
deriving DecidableEq, Repr

/-- The post-verification path of `submitStar`: build the star block and
propagate the `_addBlock` result verbatim. -/
def submitVerified (c : Blockchain) (now : Int) (address star : String) :
    SubmitOutcome × Blockchain :=
  match _addBlock c now (Block.new (BData.starOwner star address)) with
  | (Except.ok b, c2) => (SubmitOutcome.ok b, c2)
  | (Except.error e, c2) => (SubmitOutcome.rejected (SubmitReject.addFailed e), c2)

/-- `submitStar(address, message, signature, star)`.  A `NaN` embedded
timestamp makes `deltaTime <= 300` false, landing in the expiry rejection.
When the window check passes but `bitcoinMessage.verify` returns false, the
source has no else branch: the promise is never settled (`pending`). -/
def submitStar (c : Blockchain) (verify : String → String → String → Bool)
    (now : Int) (address message signature star : String) :
    SubmitOutcome × Blockchain :=
  match parseMessageTime message with
  | none => (SubmitOutcome.rejected SubmitReject.expired, c)
  | some t =>
      if now - t ≤ 300 then
        if verify message address signature then
          submitVerified c now address star
        else
          (SubmitOutcome.pending, c)
      else
        (SubmitOutcome.rejected SubmitReject.expired, c)

/-- `getBlockByHash(hash)`: `chain.filter(b => b.hash === hash)[0]`; the
filtered array is always truthy, so the promise resolves its first element,
`undefined` (`none`) when there is no match. -/
def getBlockByHash (c : Blockchain) (h : JHash) : Option Block :=
  (c.chain.filter (fun b => b.hash == h)).head?

/-- `getBlockByHeight(height)`: first element of
`chain.filter(p => p.height === height)`, `null` (`none`) when absent. -/
def getBlockByHeight (c : Blockchain) (h : Int) : Option Block :=
  (c.chain.filter (fun b => b.height == h)).head?

/-- Reading a named property (`owner`, `star`) off the value of
`block.getBData`: the getter returns a Promise object, which has no such
properties, so the access yields the JS value `undefined` (`none`). -/
def promiseProperty (_b : Block) (_field : String) : Option String := none

/-- `getStarsByWalletAddress(address)`.  The source filters on
`block.getBData.owner === address` and projects `block.getBData.star`;
both property reads go through `promiseProperty` (see there), so the filter
predicate compares `undefined` with a string. -/
def getStarsByWalletAddress (c : Blockchain) (address : String) :
    List (Option String) :=
  (c.chain.filter (fun b => promiseProperty b "owner" == some address)).map
    (fun b => promiseProperty b "star")

/-! ## Spec-side comparison definitions

The next definitions follow the words of the spec, not the source; each is
used only to compare the source behaviour against the spec in a corrected
or code-bug claim. -/

/-- Follows the words of spec section 4.3, for comparison: the validator
records carry a kind AND the height of the offending block.  The walk is
structurally parallel to `validateFrom` of the source. -/
def specErrorsFrom : Option Block → List Block → List (ValidationError × Int)
  | _, [] => []
  | prev, b :: rest =>
      ((if b.validate then [] else [(ValidationError.blockValidationFailed, b.height)]) ++
       (if 0 < b.height then
          match prev with
          | some p =>
              if b.previousBlockHash = p.hash then []
              else [(ValidationError.prevHashMismatch, b.height)]
          | none => []
        else [])) ++ specErrorsFrom (some b) rest

/-- Spec section 4.3 validator with heights, over a whole chain. -/
def specValidate (c : Blockchain) : List (ValidationError × Int) :=
  specErrorsFrom none c.chain

/-- Helper for `findByOwnerSpec`: decode every body, surface the first
decode failure, keep the stars whose owner matches. -/
def ownedStars : List Block → String → Except JsErr (List String)
  | [], _ => Except.ok []
  | b :: rest, addr =>
      match decodeBody b.body with
      | none => Except.error JsErr.parseFailed
      | some d =>
          match ownedStars rest addr with
          | Except.error e => Except.error e
          | Except.ok tail =>
              match d with
              | BData.starOwner s o =>
                  if o = addr then Except.ok (s :: tail) else Except.ok tail
              | BData.dataTag _ => Except.ok tail

/-- Follows the words of spec section 4.2 `findByOwner`, for comparison:
scan all blocks except genesis, decode each payload, filter on the owner,
project the star, and surface a decode failure to the caller. -/
def findByOwnerSpec (c : Blockchain) (address : String) :
    Except JsErr (List String) :=
  ownedStars (c.chain.drop 1) address

/-! ## Concrete fixtures used by counterexamples and witnesses -/

/-- The sealed genesis block of `initBlockchain 0`. -/
def cxG : Block := genesisBlock 0

/-- A correctly sealed block of height 1 on top of `cxG` (time 5). -/
def cxB1 : Block :=
  ⟨JHash.sha JHash.null 1 (BodyVal.enc (BData.dataTag "b1")) 5 cxG.hash,
   1, BodyVal.enc (BData.dataTag "b1"), 5, cxG.hash⟩

/-- A tampered block of height 1: correctly linked to `cxG` but with a
stored hash that does not match its own content. -/
def cxBad1 : Block :=
  ⟨JHash.lit "tampered", 1, BodyVal.enc (BData.dataTag "b1"), 5, cxG.hash⟩

/-- A tampered block of height 2 on top of `cxB1`: correctly linked but
with a stored hash that does not match its own content. -/
def cxBad2 : Block :=
  ⟨JHash.lit "tampered", 2, BodyVal.enc (BData.dataTag "b2"), 6, cxB1.hash⟩

/-- A two-block chain whose only violation is a self-hash mismatch at
height 1. -/
def cxA : Blockchain := ⟨[cxG, cxBad1], 1⟩

/-- A three-block chain whose only violation is a self-hash mismatch at
height 2. -/
def cxB : Blockchain := ⟨[cxG, cxB1, cxBad2], 2⟩

/-- A block handed to `_addBlock` with a pre-set (non-null) hash field. -/
def cxPreHashed : Block :=
  ⟨JHash.lit "stale", 0, BodyVal.enc (BData.dataTag "x"), 0, JHash.null⟩

/-- A fresh chain holding one star registration owned by `addrA`. -/
def c4Chain : Blockchain :=
  (_addBlock (initBlockchain 0) 1 (Block.new (BData.starOwner "star1" "addrA"))).2

/-- A verify oracle that rejects every signature. -/
def verifyNever : String → String → String → Bool := fun _ _ _ => false

/-- A verify oracle that accepts every signature. -/
def verifyAlways : String → String → String → Bool := fun _ _ _ => true

/-- The hash of the last block of the chain (`null` for an empty chain),
as read by `_addBlock` when linking a new block. -/
def lastBlockHash (c : Blockchain) : JHash :=
  match c.chain.getLast? with
  | some lb => lb.hash
  | none => JHash.null

/-- The block produced by `_addBlock (initBlockchain 0) 5 cxPreHashed`:
sealed with the stale stored hash still inside the hashed serialization. -/
def cxPreSealedBlock : Block :=
  ⟨serializeSHA256 ⟨JHash.lit "stale", 1, BodyVal.enc (BData.dataTag "x"), 5,
     (genesisBlock 0).hash⟩,
   1, BodyVal.enc (BData.dataTag "x"), 5, (genesisBlock 0).hash⟩

/-- A run of successful appends of freshly constructed blocks, each with its
own clock reading.  `none` as soon as one `_addBlock` rejects. -/
def appendAll (c : Blockchain) : List (Int × BData) → Option Blockchain
  | [] => some c
  | (t, d) :: rest =>
      match _addBlock c t (Block.new d) with
      | (Except.ok _, c2) => appendAll c2 rest
      | (Except.error _, _) => none

/-- Two fresh-block appends used by witnesses. -/
def c6Ops : List (Int × BData) :=
  [(1, BData.dataTag "a"), (2, BData.starOwner "s" "o")]

/-- The chain after the two appends of `c6Ops`. -/
def c6Chain : Blockchain := (appendAll (initBlockchain 0) c6Ops).getD ⟨[], -1⟩

/-- The invariant of chains produced by the public write path: the height
counter matches the array length, the array is nonempty (genesis present),
block heights equal their indices, every block passes its self-hash check,
and every block after the first links to its predecessor's hash. -/
def GoodChain (c : Blockchain) : Prop :=
  c.height = (c.chain.length : Int) - 1 ∧
  c.chain ≠ [] ∧
  (∀ i : Fin c.chain.length, (c.chain.get i).height = (i.val : Int)) ∧
  (∀ b ∈ c.chain, b.validate = true) ∧
  c.chain.Chain' (fun a b => b.previousBlockHash = a.hash)

/-! ## Helper lemmas about the validator -/

/-- The guarded link condition the validator checks between a block and its
predecessor. -/
def linkOkGuard (a b : Block) : Prop :=
  0 < b.height → b.previousBlockHash = a.hash

lemma validate_hash {b : Block} (h : b.validate = true) :
    b.hash = serializeSHA256 (clearHash b) := by
  simpa [Block.validate] using h

lemma blockErrors_eq_nil {p : Option Block} {b : Block} :
    blockErrors p b = [] ↔
      (b.validate = true ∧ ∀ q, p = some q → linkOkGuard q b) := by
  cases p with
  | none =>
      simp only [blockErrors, linkOkGuard, List.append_eq_nil]
      constructor
      · rintro ⟨h1, _⟩
        refine ⟨?_, by simp⟩
        by_contra hv
        simp [hv] at h1
      · rintro ⟨hv, _⟩
        simp [hv]
  | some q =>
      simp only [blockErrors, linkOkGuard, List.append_eq_nil]
      constructor
      · rintro ⟨h1, h2⟩
        have hv : b.validate = true := by
          by_contra hv; simp [hv] at h1
        refine ⟨hv, ?_⟩
        rintro q' hq' hpos
        cases hq'
        by_contra hne
        simp [hpos, hne] at h2
      · rintro ⟨hv, hlink⟩
        refine ⟨by simp [hv], ?_⟩
        by_cases hpos : 0 < b.height
        · simp [hpos, hlink q rfl hpos]
        · simp [hpos]

lemma validateFrom_eq_nil (l : List Block) : ∀ p : Option Block,
    validateFrom p l = [] ↔
      ((∀ b ∈ l, b.validate = true) ∧ l.Chain' linkOkGuard ∧
       ∀ q, p = some q → ∀ b ∈ l.head?, linkOkGuard q b) := by
  induction l with
  | nil => intro p; simp [validateFrom]
  | cons b rest ih =>
      intro p
      rw [validateFrom, List.append_eq_nil, blockErrors_eq_nil, ih (some b),
        List.chain'_cons']
      simp only [List.forall_mem_cons, List.head?_cons, Option.mem_def,
        Option.some.injEq, forall_eq']
      tauto

/-- Emptiness of the validator log characterised: every block passes its
self-hash check and consecutive blocks satisfy the guarded link condition. -/
lemma validateChain_eq_nil (c : Blockchain) :
    validateChain c = [] ↔
      (∀ b ∈ c.chain, b.validate = true) ∧ c.chain.Chain' linkOkGuard := by
  rw [validateChain, validateFrom_eq_nil]
  simp

/-- The source log is the spec-side log with the heights forgotten. -/
lemma validateFrom_eq_map_fst (l : List Block) : ∀ p : Option Block,
    validateFrom p l = (specErrorsFrom p l).map Prod.fst := by
  induction l with
  | nil => intro p; simp [validateFrom, specErrorsFrom]
  | cons b rest ih =>
      intro p
      rw [validateFrom, show specErrorsFrom p (b :: rest) =
        ((if b.validate then [] else [(ValidationError.blockValidationFailed, b.height)]) ++
         (if 0 < b.height then
            match p with
            | some q =>
                if b.previousBlockHash = q.hash then []
                else [(ValidationError.prevHashMismatch, b.height)]
            | none => []
          else [])) ++ specErrorsFrom (some b) rest from rfl]
      simp only [List.map_append, ih (some b)]
      congr 1
      rw [blockErrors.eq_def]
      congr 1
      · split <;> simp
      · cases p with
        | none => split <;> simp
        | some q =>
            by_cases hpos : 0 < b.height
            · by_cases hprev : b.previousBlockHash = q.hash <;> simp [hpos, hprev]
            · simp [hpos]

/-! ## The reachable-state invariant -/

lemma GoodChain.validateChain_nil {c : Blockchain} (hg : GoodChain c) :
    validateChain c = [] := by
  obtain ⟨-, -, -, hval, hchain⟩ := hg
  refine (validateChain_eq_nil c).mpr ⟨hval, hchain.imp ?_⟩
  intro a b h
  exact fun _ => h

lemma initBlockchain_eq (t0 : Int) : initBlockchain t0 = ⟨[genesisBlock t0], 0⟩ := rfl

lemma genesisBlock_validate (t0 : Int) : (genesisBlock t0).validate = true := by
  simp [Block.validate, genesisBlock, clearHash, serializeSHA256]

lemma initBlockchain_good (t0 : Int) : GoodChain (initBlockchain t0) := by
  rw [initBlockchain_eq]
  refine ⟨rfl, by simp, ?_, ?_, ?_⟩
  · rintro ⟨iv, hlt⟩
    simp only [List.length_singleton] at hlt
    have hiv : iv = 0 := by omega
    subst hiv
    rfl
  · intro b hb
    simp only [List.mem_singleton] at hb
    subst hb
    exact genesisBlock_validate t0
  · exact List.chain'_singleton _

/-- Appending a correctly sealed and linked block preserves the
reachable-state invariant. -/
lemma snocGood (c : Blockchain) (b : Block) (hg : GoodChain c)
    (hbh : b.height = c.height + 1)
    (hbv : b.validate = true)
    (hbl : ∀ lb, c.chain.getLast? = some lb → b.previousBlockHash = lb.hash) :
    GoodChain ⟨c.chain ++ [b], c.height + 1⟩ := by
  obtain ⟨hh, hne, hidx, hval, hchain⟩ := hg
  refine ⟨?_, by simp, ?_, ?_, ?_⟩
  · show c.height + 1 = ((c.chain ++ [b]).length : Int) - 1
    rw [hh, List.length_append, List.length_singleton]
    omega
  · intro i
    show ((c.chain ++ [b]).get i).height = (i.val : Int)
    rcases Nat.lt_or_ge i.val c.chain.length with hi | hi
    · have hget : (c.chain ++ [b]).get i = c.chain.get ⟨i.val, hi⟩ := by
        rw [List.get_eq_getElem, List.get_eq_getElem]
        exact List.getElem_append_left hi
      rw [hget]
      exact hidx ⟨i.val, hi⟩
    · have hieq : i.val = c.chain.length := by
        have h2 := i.isLt
        simp only [List.length_append, List.length_singleton] at h2
        omega
      have hget : (c.chain ++ [b]).get i = b := by
        rw [List.get_eq_getElem]
        exact List.getElem_concat_length c.chain b i.val hieq _
      rw [hget, hbh, hh, hieq]
      omega
  · intro x hx
    rw [List.mem_append] at hx
    rcases hx with hx | hx
    · exact hval x hx
    · simp only [List.mem_singleton] at hx
      subst hx
      exact hbv
  · refine List.Chain'.append hchain (List.chain'_singleton _) ?_
    intro x hx y hy
    simp only [List.head?_cons, Option.mem_def, Option.some.injEq] at hy
    subst hy
    exact hbl x (Option.mem_def.mp hx)

/-- One successful fresh-block append from a good state: the result, the
sealed block's fields, and preservation of the invariant. -/
lemma addBlock_fresh (c : Blockchain) (now : Int) (d : BData) (hg : GoodChain c) :
    ∃ b' : Block,
      _addBlock c now (Block.new d) = (Except.ok b', ⟨c.chain ++ [b'], c.height + 1⟩) ∧
      b'.height = c.height + 1 ∧ b'.time = now ∧ b'.validate = true ∧
      (∀ lb, c.chain.getLast? = some lb → b'.previousBlockHash = lb.hash) ∧
      GoodChain ⟨c.chain ++ [b'], c.height + 1⟩ := by
  have hvnil := hg.validateChain_nil
  have hne := hg.2.1
  have hh := hg.1
  obtain ⟨lastB, hlast⟩ : ∃ a, c.chain.getLast? = some a :=
    ⟨c.chain.getLast hne, List.getLast?_eq_getLast c.chain hne⟩
  have hlen : 1 ≤ c.chain.length := by
    cases hc : c.chain with
    | nil => exact absurd hc hne
    | cons a t => simp
  have hpos : 0 < c.height + 1 := by
    rw [hh]
    have : (1 : Int) ≤ (c.chain.length : Int) := by exact_mod_cast hlen
    omega
  have hbv : Block.validate
      ⟨serializeSHA256 ⟨JHash.null, c.height + 1, BodyVal.enc d, now, lastB.hash⟩,
       c.height + 1, BodyVal.enc d, now, lastB.hash⟩ = true := by
    simp [Block.validate, clearHash, serializeSHA256]
  refine ⟨⟨serializeSHA256 ⟨JHash.null, c.height + 1, BodyVal.enc d, now, lastB.hash⟩,
           c.height + 1, BodyVal.enc d, now, lastB.hash⟩, ?_, rfl, rfl, hbv, ?_, ?_⟩
  · simp only [_addBlock, Block.new, hlast, hvnil, if_pos hpos]
    simp
  · intro lb hlb
    rw [hlast] at hlb
    cases hlb
    rfl
  · refine snocGood c _ hg rfl hbv ?_
    intro lb hlb
    rw [hlast] at hlb
    cases hlb
    rfl

lemma appendAll_good (ops : List (Int × BData)) : ∀ c c' : Blockchain,
    GoodChain c → appendAll c ops = some c' →
      GoodChain c' ∧ c'.height = c.height + ops.length := by
  induction ops with
  | nil =>
      intro c c' hg h
      simp only [appendAll, Option.some.injEq] at h
      subst h
      exact ⟨hg, by simp⟩
  | cons td rest ih =>
      intro c c' hg h
      obtain ⟨t, d⟩ := td
      obtain ⟨b2, heq, -, -, -, -, hg2⟩ := addBlock_fresh c t d hg
      rw [appendAll, heq] at h
      obtain ⟨hg', hh'⟩ := ih _ _ hg2 h
      refine ⟨hg', ?_⟩
      rw [hh']
      simp only [List.length_cons]
      push_cast
      omega

/-- When a boolean predicate holds at exactly one position of a list, the
filtered list is that one element. -/
lemma filter_eq_get (l : List Block) (p : Block → Bool) (i : Fin l.length)
    (hp : p (l.get i) = true)
    (huniq : ∀ j : Fin l.length, p (l.get j) = true → j = i) :
    l.filter p = [l.get i] := by
  induction l with
  | nil => exact absurd i.isLt (by simp)
  | cons a t ih =>
      obtain ⟨iv, hlt⟩ := i
      cases iv with
      | zero =>
          have hfa : p a = true := hp
          have hft : t.filter p = [] := by
            rw [List.filter_eq_nil_iff]
            intro x hx
            obtain ⟨j, hj⟩ := List.mem_iff_get.mp hx
            subst hj
            intro hpx
            have hpj : p ((a :: t).get ⟨j.val + 1, by simp⟩) = true := hpx
            have h0 := huniq ⟨j.val + 1, by simp⟩ hpj
            exact absurd (Fin.ext_iff.mp h0) (by simp)
          simp [List.filter_cons, hfa, hft]
      | succ jv =>
          have hjv : jv < t.length := by simpa using hlt
          have hfa : p a = false := by
            cases hq : p a with
            | false => rfl
            | true =>
                have hpa' : p ((a :: t).get ⟨0, by simp⟩) = true := hq
                have h0 := huniq ⟨0, by simp⟩ hpa'
                exact absurd (Fin.ext_iff.mp h0).symm (by simp)
          have hp' : p (t.get ⟨jv, hjv⟩) = true := hp
          have huniq' : ∀ k : Fin t.length, p (t.get k) = true → k = ⟨jv, hjv⟩ := by
            intro k hk
            have hk' : p ((a :: t).get ⟨k.val + 1, by simp⟩) = true := hk
            have h1 := huniq ⟨k.val + 1, by simp⟩ hk'
            have h2 := Fin.ext_iff.mp h1
            simp only [Fin.val_mk, Nat.add_right_cancel_iff] at h2
            exact Fin.ext h2
          have hrec := ih ⟨jv, hjv⟩ hp' huniq'
          have hget : ((a :: t).get ⟨jv + 1, hlt⟩ : Block) = t.get ⟨jv, hjv⟩ := rfl
          rw [hget]
          simp [List.filter_cons, hfa, hrec]

/-! ## Claims -/

/-- C7: a freshly constructed Chain, after its genesis initialisation
completes and before any other operation, contains exactly one block, of
height 0, with null previous hash, whose self-hash validation returns
true. -/
theorem C7_genesis_invariant (t0 : Int) :
    ∃ g : Block, (initBlockchain t0).chain = [g] ∧ g.height = 0 ∧
      g.previousBlockHash = JHash.null ∧ g.validate = true := by
  refine ⟨genesisBlock t0, ?_, rfl, rfl, genesisBlock_validate t0⟩
  rw [initBlockchain_eq]

/-- C10: for every block of height 0, `getBData` resolves the sentinel
`Genesis Block!` regardless of the stored body: the sentinel settles the
promise before the body decode runs, so even an undecodable body cannot
change the result. -/
theorem C10_genesis_read (b : Block) (h : b.height = 0) :
    b.getBData = Except.ok (BValue.text "Genesis Block!") := by
  simp [Block.getBData, h]

theorem C10_genesis_read_witness :
    (Block.mk JHash.null 0 (BodyVal.junk "not json") 0 JHash.null).height = 0 ∧
    decodeBody (BodyVal.junk "not json") = none ∧
    Block.getBData (Block.mk JHash.null 0 (BodyVal.junk "not json") 0 JHash.null)
      = Except.ok (BValue.text "Genesis Block!") :=
  ⟨rfl, rfl, C10_genesis_read (Block.mk JHash.null 0 (BodyVal.junk "not json") 0 JHash.null) rfl⟩

/-- C2 (code behaviour at the failing input): an in-window `submitStar`
whose signature fails verification leaves the promise forever pending —
there is no `InvalidSignature` rejection in the source, because the
`verify` branch has no else.  No block is built and `currentHeight()` is
unchanged. -/
theorem C2_invalid_signature_behavior :
    submitStar (initBlockchain 0) verifyNever 1000 "addr"
      "addr:900:starRegistry" "sig" "star"
      = (SubmitOutcome.pending, initBlockchain 0) ∧
    getChainHeight ((submitStar (initBlockchain 0) verifyNever 1000 "addr"
      "addr:900:starRegistry" "sig" "star").2)
      = getChainHeight (initBlockchain 0) :=
  ⟨by decide, by decide⟩

/-- C4 (code behaviour at the failing input): `getStarsByWalletAddress`
resolves the empty array even though the chain holds a star owned by the
queried address, because the filter reads `.owner` off the Promise returned
by the `getBData` getter; the spec-side `findByOwnerSpec` returns the
star. -/
theorem C4_owner_lookup_behavior :
    getStarsByWalletAddress c4Chain "addrA" = [] ∧
    findByOwnerSpec c4Chain "addrA" = Except.ok ["star1"] :=
  ⟨by decide, by decide⟩

/-- C3: with `t` the timestamp parsed from the second colon-delimited field
of the message, a delta over 300 seconds rejects with the expiry error for
every verify oracle (the signature is never consulted), and a delta of at
most 300 — including every negative delta — proceeds to signature
verification: the result is the post-verification path when the oracle
accepts and the never-settled promise when it rejects. -/
theorem C3_time_window (c : Blockchain) (verify : String → String → String → Bool)
    (now t : Int) (address message signature star : String)
    (hp : parseMessageTime message = some t) :
    (300 < now - t →
        submitStar c verify now address message signature star
          = (SubmitOutcome.rejected SubmitReject.expired, c)) ∧
    (now - t ≤ 300 →
        submitStar c verify now address message signature star
          = (if verify message address signature
             then submitVerified c now address star
             else (SubmitOutcome.pending, c))) := by
  constructor
  · intro hgt
    unfold submitStar
    rw [hp]
    simp only []
    rw [if_neg (by omega)]
  · intro hle
    unfold submitStar
    rw [hp]
    simp only []
    rw [if_pos hle]

theorem C3_time_window_witness :
    (((300 : Int) < 1000 - 701 →
        submitStar (initBlockchain 0) verifyAlways 1000 "addr"
          "addr:701:starRegistry" "sig" "star"
          = (SubmitOutcome.rejected SubmitReject.expired, initBlockchain 0)) ∧
     ((1000 : Int) - 701 ≤ 300 →
        submitStar (initBlockchain 0) verifyAlways 1000 "addr"
          "addr:701:starRegistry" "sig" "star"
          = (if verifyAlways "addr:701:starRegistry" "addr" "sig"
             then submitVerified (initBlockchain 0) 1000 "addr" "star"
             else (SubmitOutcome.pending, initBlockchain 0)))) ∧
    (((300 : Int) < 1000 - 699 →
        submitStar (initBlockchain 0) verifyAlways 1000 "addr"
          "addr:699:starRegistry" "sig" "star"
          = (SubmitOutcome.rejected SubmitReject.expired, initBlockchain 0)) ∧
     ((1000 : Int) - 699 ≤ 300 →
        submitStar (initBlockchain 0) verifyAlways 1000 "addr"
          "addr:699:starRegistry" "sig" "star"
          = (if verifyAlways "addr:699:starRegistry" "addr" "sig"
             then submitVerified (initBlockchain 0) 1000 "addr" "star"
             else (SubmitOutcome.pending, initBlockchain 0)))) ∧
    (((300 : Int) < 1000 - 1100 →
        submitStar (initBlockchain 0) verifyAlways 1000 "addr"
          "addr:1100:starRegistry" "sig" "star"
          = (SubmitOutcome.rejected SubmitReject.expired, initBlockchain 0)) ∧
     ((1000 : Int) - 1100 ≤ 300 →
        submitStar (initBlockchain 0) verifyAlways 1000 "addr"
          "addr:1100:starRegistry" "sig" "star"
          = (if verifyAlways "addr:1100:starRegistry" "addr" "sig"
             then submitVerified (initBlockchain 0) 1000 "addr" "star"
             else (SubmitOutcome.pending, initBlockchain 0)))) :=
  ⟨C3_time_window (initBlockchain 0) verifyAlways 1000 701 "addr"
      "addr:701:starRegistry" "sig" "star" (by decide),
   C3_time_window (initBlockchain 0) verifyAlways 1000 699 "addr"
      "addr:699:starRegistry" "sig" "star" (by decide),
   C3_time_window (initBlockchain 0) verifyAlways 1000 1100 "addr"
      "addr:1100:starRegistry" "sig" "star" (by decide)⟩

/-- C8: a failed append leaves the chain state unchanged: no block is
added and the height counter is not incremented. -/
theorem C8_failed_append_unchanged (c : Blockchain) (now : Int) (b : Block)
    (e : AddReject) (h : (_addBlock c now b).1 = Except.error e) :
    (_addBlock c now b).2 = c := by
  by_cases hpos : 0 < c.height + 1
  · cases hlast : c.chain.getLast? with
    | none => simp [_addBlock, hpos, hlast]
    | some lb =>
        by_cases hv : validateChain c = []
        · simp [_addBlock, hpos, hlast, hv] at h
        · simp [_addBlock, hpos, hlast, hv]
  · by_cases hv : validateChain c = []
    · simp [_addBlock, hpos, hv] at h
    · simp [_addBlock, hpos, hv]

theorem C8_failed_append_unchanged_witness :
    (_addBlock cxA 9 (Block.new (BData.dataTag "w"))).2 = cxA :=
  C8_failed_append_unchanged cxA 9 (Block.new (BData.dataTag "w"))
    (AddReject.errs [ValidationError.blockValidationFailed]) (by decide)

/-- C5 (counterexample): the error records returned by `validateChain`
carry no block height.  Two chains whose only violations are at different
heights (1 in `cxA`, 2 in `cxB`, as the spec-side validator certifies)
produce identical logs, so no assignment of heights to the returned
records can reproduce the heights the claim says they contain. -/
theorem C5_records_lack_height :
    validateChain cxA = validateChain cxB ∧
    specValidate cxA = [(ValidationError.blockValidationFailed, 1)] ∧
    specValidate cxB = [(ValidationError.blockValidationFailed, 2)] ∧
    ¬ ∃ heightOf : ValidationError → Int,
        (∀ q ∈ specValidate cxA, heightOf q.1 = q.2) ∧
        (∀ q ∈ specValidate cxB, heightOf q.1 = q.2) := by
  refine ⟨by decide, by decide, by decide, ?_⟩
  rintro ⟨f, hA, hB⟩
  have h1 : f ValidationError.blockValidationFailed = 1 :=
    hA (ValidationError.blockValidationFailed, 1) (by decide)
  have h2 : f ValidationError.blockValidationFailed = 2 :=
    hB (ValidationError.blockValidationFailed, 2) (by decide)
  rw [h1] at h2
  exact absurd h2 (by decide)

/-- C5 (amended): `validateChain` is the spec-side validator with the
heights forgotten — for each block in height order it emits a
kind-only record for a failed self-hash check and for a broken link to the
predecessor — and its log is empty exactly when no such violation
exists. -/
theorem C5_validator_amended (c : Blockchain) :
    validateChain c = (specValidate c).map Prod.fst ∧
    (validateChain c = [] ↔
      (∀ b ∈ c.chain, b.validate = true) ∧
      c.chain.Chain' (fun a b => 0 < b.height → b.previousBlockHash = a.hash)) := by
  refine ⟨validateFrom_eq_map_fst c.chain none, ?_⟩
  have h := validateChain_eq_nil c
  simpa [linkOkGuard] using h

/-- C1 (counterexample): `_addBlock` does not validate the chain with the
new block included, and it hashes the block without clearing the stored
hash field.  Appending a block whose hash field is pre-set to a stale
string to a perfectly valid fresh chain succeeds and commits, yet the
committed chain immediately fails validation — impossible if placement
stood only when full validation including the new block reported zero
errors. -/
theorem C1_commit_despite_invalid :
    _addBlock (initBlockchain 0) 5 cxPreHashed
      = (Except.ok cxPreSealedBlock, ⟨[genesisBlock 0, cxPreSealedBlock], 1⟩) ∧
    validateChain ⟨[genesisBlock 0, cxPreSealedBlock], 1⟩
      = [ValidationError.blockValidationFailed] :=
  ⟨by decide, by decide⟩

/-- C1 (amended): `append` seals the block (height `currentHeight()+1`,
previous hash of the last block when the new height is positive, the
current timestamp, and the hash of the block as it stands — which equals
the hash with the hash field cleared exactly for freshly constructed
blocks, whose hash field is null), then validates the existing chain
WITHOUT the new block: on an empty error log the block is appended and
returned, otherwise the call fails with the full error list and nothing
was ever placed, so there is no rollback step. -/
theorem C1_append_behavior (c : Blockchain) (now : Int) (b : Block)
    (hne : c.chain ≠ []) :
    (validateChain c = [] →
       ∃ b' : Block, (_addBlock c now b).1 = Except.ok b' ∧
         (_addBlock c now b).2 = ⟨c.chain ++ [b'], c.height + 1⟩ ∧
         b'.height = c.height + 1 ∧ b'.time = now ∧ b'.body = b.body ∧
         (0 < c.height + 1 → b'.previousBlockHash = lastBlockHash c) ∧
         (b.hash = JHash.null → b'.validate = true)) ∧
    (validateChain c ≠ [] →
       (_addBlock c now b).1 = Except.error (AddReject.errs (validateChain c)) ∧
       (_addBlock c now b).2 = c) := by
  obtain ⟨lastB, hlast⟩ : ∃ a, c.chain.getLast? = some a :=
    ⟨c.chain.getLast hne, List.getLast?_eq_getLast c.chain hne⟩
  constructor
  · intro hv
    by_cases hpos : 0 < c.height + 1
    · refine ⟨⟨serializeSHA256 ⟨b.hash, c.height + 1, b.body, now, lastB.hash⟩,
               c.height + 1, b.body, now, lastB.hash⟩, ?_, ?_, rfl, rfl, rfl, ?_, ?_⟩
      · simp [_addBlock, hpos, hlast, hv]
      · simp [_addBlock, hpos, hlast, hv]
      · intro _
        rw [lastBlockHash, hlast]
      · intro hb0
        simp [Block.validate, clearHash, serializeSHA256, hb0]
    · refine ⟨⟨serializeSHA256 ⟨b.hash, c.height + 1, b.body, now, b.previousBlockHash⟩,
               c.height + 1, b.body, now, b.previousBlockHash⟩, ?_, ?_, rfl, rfl, rfl, ?_, ?_⟩
      · simp [_addBlock, hpos, hv]
      · simp [_addBlock, hpos, hv]
      · intro hc
        exact absurd hc hpos
      · intro hb0
        simp [Block.validate, clearHash, serializeSHA256, hb0]
  · intro hv
    by_cases hpos : 0 < c.height + 1
    · constructor
      · simp [_addBlock, hpos, hlast, hv]
      · simp [_addBlock, hpos, hlast, hv]
    · constructor
      · simp [_addBlock, hpos, hv]
      · simp [_addBlock, hpos, hv]

theorem C1_append_behavior_witness :
    (validateChain (initBlockchain 0) = [] →
       ∃ b' : Block,
         (_addBlock (initBlockchain 0) 7 (Block.new (BData.dataTag "d"))).1
           = Except.ok b' ∧
         (_addBlock (initBlockchain 0) 7 (Block.new (BData.dataTag "d"))).2
           = ⟨(initBlockchain 0).chain ++ [b'], (initBlockchain 0).height + 1⟩ ∧
         b'.height = (initBlockchain 0).height + 1 ∧ b'.time = 7 ∧
         b'.body = (Block.new (BData.dataTag "d")).body ∧
         (0 < (initBlockchain 0).height + 1 →
            b'.previousBlockHash = lastBlockHash (initBlockchain 0)) ∧
         ((Block.new (BData.dataTag "d")).hash = JHash.null → b'.validate = true)) ∧
    (validateChain (initBlockchain 0) ≠ [] →
       (_addBlock (initBlockchain 0) 7 (Block.new (BData.dataTag "d"))).1
         = Except.error (AddReject.errs (validateChain (initBlockchain 0))) ∧
       (_addBlock (initBlockchain 0) 7 (Block.new (BData.dataTag "d"))).2
         = initBlockchain 0) :=
  C1_append_behavior (initBlockchain 0) 7 (Block.new (BData.dataTag "d")) (by decide)

/-- C6: after any sequence of successful fresh-block appends to a freshly
constructed chain, `currentHeight()` equals the number of appends, the
validator log is empty, every non-genesis block links to its predecessor's
hash, and every block passes its self-hash check. -/
theorem C6_successful_appends (t0 : Int) (ops : List (Int × BData)) (c : Blockchain)
    (h : appendAll (initBlockchain t0) ops = some c) :
    getChainHeight c = (ops.length : Int) ∧
    validateChain c = [] ∧
    c.chain.Chain' (fun a b => b.previousBlockHash = a.hash) ∧
    (∀ b ∈ c.chain, b.validate = true) := by
  obtain ⟨hg, hh⟩ := appendAll_good ops (initBlockchain t0) c (initBlockchain_good t0) h
  refine ⟨?_, hg.validateChain_nil, hg.2.2.2.2, hg.2.2.2.1⟩
  rw [getChainHeight, hh]
  rw [initBlockchain_eq]
  simp

theorem C6_successful_appends_witness :
    getChainHeight c6Chain = (c6Ops.length : Int) ∧
    validateChain c6Chain = [] ∧
    c6Chain.chain.Chain' (fun a b => b.previousBlockHash = a.hash) ∧
    (∀ b ∈ c6Chain.chain, b.validate = true) :=
  C6_successful_appends 0 c6Ops c6Chain (by rfl)

/-- C9: on any chain built by the public write path, looking a committed
block up by its height or by its hash returns that same block, and looking
up a height or hash that belongs to no committed block resolves an absent
result instead of failing. -/
theorem C9_lookups (t0 : Int) (ops : List (Int × BData)) (c : Blockchain)
    (h : appendAll (initBlockchain t0) ops = some c) :
    (∀ i : Fin c.chain.length,
        getBlockByHeight c ((c.chain.get i).height) = some (c.chain.get i) ∧
        getBlockByHash c ((c.chain.get i).hash) = some (c.chain.get i)) ∧
    (∀ ht : Int, (∀ b ∈ c.chain, b.height ≠ ht) → getBlockByHeight c ht = none) ∧
    (∀ hv : JHash, (∀ b ∈ c.chain, b.hash ≠ hv) → getBlockByHash c hv = none) := by
  obtain ⟨hg, -⟩ := appendAll_good ops (initBlockchain t0) c (initBlockchain_good t0) h
  obtain ⟨-, -, hidx, hval, -⟩ := hg
  refine ⟨?_, ?_, ?_⟩
  · intro i
    constructor
    · have hfil : c.chain.filter (fun b => b.height == (c.chain.get i).height)
          = [c.chain.get i] := by
        apply filter_eq_get
        · simp
        · intro j hj
          simp only [beq_iff_eq] at hj
          have h1 := hidx j
          have h2 := hidx i
          rw [hj, h2] at h1
          have h4 : i.val = j.val := by exact_mod_cast h1
          exact Fin.ext h4.symm
      rw [getBlockByHeight, hfil]
      rfl
    · have hfil : c.chain.filter (fun b => b.hash == (c.chain.get i).hash)
          = [c.chain.get i] := by
        apply filter_eq_get
        · simp
        · intro j hj
          simp only [beq_iff_eq] at hj
          have hvj := validate_hash (hval _ (List.get_mem c.chain j.val j.isLt))
          have hvi := validate_hash (hval _ (List.get_mem c.chain i.val i.isLt))
          rw [hvj, hvi] at hj
          simp only [serializeSHA256, clearHash, JHash.sha.injEq] at hj
          have h1 := hidx j
          have h2 := hidx i
          rw [hj.2.1, h2] at h1
          have h4 : i.val = j.val := by exact_mod_cast h1
          exact Fin.ext h4.symm
      rw [getBlockByHash, hfil]
      rfl
  · intro ht hno
    have hfil : c.chain.filter (fun b => b.height == ht) = [] := by
      rw [List.filter_eq_nil_iff]
      intro x hx
      simp [hno x hx]
    rw [getBlockByHeight, hfil]
    rfl
  · intro hv hno
    have hfil : c.chain.filter (fun b => b.hash == hv) = [] := by
      rw [List.filter_eq_nil_iff]
      intro x hx
      simp [hno x hx]
    rw [getBlockByHash, hfil]
    rfl

theorem C9_lookups_witness :
    (∀ i : Fin c6Chain.chain.length,
        getBlockByHeight c6Chain ((c6Chain.chain.get i).height)
          = some (c6Chain.chain.get i) ∧
        getBlockByHash c6Chain ((c6Chain.chain.get i).hash)
          = some (c6Chain.chain.get i)) ∧
    (∀ ht : Int, (∀ b ∈ c6Chain.chain, b.height ≠ ht) →
        getBlockByHeight c6Chain ht = none) ∧
    (∀ hv : JHash, (∀ b ∈ c6Chain.chain, b.hash ≠ hv) →
        getBlockByHash c6Chain hv = none) :=
  C9_lookups 0 c6Ops c6Chain (by rfl)
